import Mathlib

/-!
# Task Poller — verification development

A shallow embedding of the task-polling scheduler described in the repository
specification (`task_poller`): a reactive primitive that merges a steady timer
with an ad-hoc request channel, gates cycles on a capacity oracle, serialises
`work` invocations, enforces a per-invocation timeout, buffers argument
requests up to a capacity bound, and reports all failures as values.

The repository slice under scrutiny ships only the poller's unit tests
(`task_poller.test.ts`); the implementation module itself is absent. The
definitions below are therefore modelled from the specification's data model
and cycle algorithm (spec §3–§5), kept consistent with the observable
behaviour the shipped tests pin down (call counts, argument lists, error
payloads and messages).

The embedding is an explicit state machine: real time is abstracted into a
trace of events (timer ticks carrying the capacity sampled at tick time,
request arrivals, settlements and timeout firings of in-flight invocations,
each invocation identified by a monotone id). A separate, time-explicit
timer model covers interval scheduling and reconfiguration.
-/

namespace TaskPoller

/-- Modelled from the spec (§3, PollingError): the two error kinds the poller
can emit — `WorkError` for a work rejection/timeout, `RequestCapacityReached`
for buffer overflow. Mirrors `PollingErrorType` used by the shipped tests. -/
inductive PollingErrorType : Type
  | WorkError
  | RequestCapacityReached
  deriving DecidableEq, Repr

/-- Modelled from the spec (§3, §7): an emitted polling error — a
human-readable message, the error kind tag, and the associated request data
(`some` the rejected request for capacity errors, `none` for work errors).
Mirrors the `PollingError` constructor arguments checked by the tests. -/
structure PollingError (T : Type) : Type where
  message : String
  etype : PollingErrorType
  data : Option T
  deriving DecidableEq, Repr

/-- Modelled from the spec (§4.1): one emitted outcome — `Result<R, PollingError>`
delivered as a value, never thrown. -/
inductive PollOutcome (T R : Type) : Type
  | ok (value : R)
  | err (error : PollingError T)
  deriving DecidableEq, Repr

/-- Modelled from the spec (§3, Capacity / §4.1 cycle algorithm): the inputs
driving scheduling decisions, abstracted into a trace of events.
* `tick cap` — the steady interval timer fires; `cap` is the value
  `getCapacity()` returns at that instant.
* `request payload cap` — a value arrives on the request channel
  (`none` = nudge, `some t` = argument-carrying); `cap` is the capacity at
  that instant.
* `settle id r` — the `work` invocation with identifier `id` settles, either
  fulfilled (`Except.ok`) or rejected with an error description
  (`Except.error`).
* `timeoutFire id` — `workTimeout` elapses for the invocation `id` before it
  settled. -/
inductive Event (T R : Type) : Type
  | tick (cap : Nat)
  | request (payload : Option T) (cap : Nat)
  | settle (id : Nat) (result : Except String R)
  | timeoutFire (id : Nat)
  deriving Repr

/-- Modelled from the spec (§4.1, §5): the poller's mutable state — the FIFO
buffer of pending argument requests, the identifier of the in-flight `work`
invocation (if any), a monotone counter issuing invocation identifiers, the
history of started invocations (id and argument list, in start order), and
the emitted outcome sequence (tagged with the cycle id for work outcomes,
`none` for capacity errors, in emission order). -/
structure PollerState (T R : Type) : Type where
  buffer : List T
  inflight : Option Nat
  nextId : Nat
  invocations : List (Nat × List T)
  outcomes : List (Option Nat × PollOutcome T R)
  deriving DecidableEq, Repr

/-- The poller's state right after construction and subscription: nothing
buffered, nothing in flight, nothing invoked, nothing emitted. -/
def initialState (T R : Type) : PollerState T R :=
  ⟨[], none, 0, [], []⟩

/-- Modelled from the spec (§4.1 steps 3–4): start a cycle — drain `args`
into a new `work` invocation, record it in-flight under a fresh id. -/
def startCycle (s : PollerState T R) (args : List T) : PollerState T R :=
  { s with
    buffer := []
    inflight := some s.nextId
    nextId := s.nextId + 1
    invocations := s.invocations ++ [(s.nextId, args)] }

/-- Modelled from the spec (§7) and the error message the shipped tests
check: the capacity-overflow error carries the exact rejected request. -/
def capacityError (t : T) : PollingError T :=
  ⟨"Failed to poll for work: request capacity reached",
   PollingErrorType.RequestCapacityReached, some t⟩

/-- Modelled from the spec (§7) and the message format the shipped tests
check: a work error wraps the underlying cause, with no associated request. -/
def workError (T : Type) (cause : String) : PollingError T :=
  ⟨"Failed to poll for work: " ++ cause, PollingErrorType.WorkError, none⟩

/-- The cause string a timed-out invocation is failed with, as asserted by
the shipped timeout test. -/
def timeoutCause : String := "Error: work has timed out"

/-- Modelled from the spec (§4.1 step 5): the outcome emitted when the
in-flight `work` invocation settles — its value on fulfilment, a `WorkError`
wrapping the cause on rejection. -/
def settleOutcome (T : Type) {R : Type} : Except String R → PollOutcome T R
  | Except.ok v => PollOutcome.ok v
  | Except.error cause => PollOutcome.err (workError T cause)

/-- Modelled from the spec (§4.1 cycle algorithm, buffering & back-pressure,
§5): one scheduling transition of the poller on one event.
* A tick (or a nudge) with zero capacity, or while a cycle is in flight,
  changes nothing; otherwise it starts a cycle draining the whole buffer
  (possibly empty).
* An argument request with positive capacity and no cycle in flight starts an
  immediate cycle on the buffer plus the new payload; otherwise it is
  appended to the buffer, unless the buffer already holds `bufferCapacity`
  requests, in which case the newest request is rejected with a capacity
  error and not stored.
* A settlement of the in-flight invocation emits its success value or a
  `WorkError` wrapping its rejection, and frees the slot; a settlement of any
  other id (a late settlement of a timed-out call) is discarded.
* A timeout firing for the in-flight invocation emits a `WorkError` with the
  timeout cause and frees the slot; for any other id it is ignored. -/
def step (bufferCapacity : Nat) (s : PollerState T R) :
    Event T R → PollerState T R
  | Event.tick cap =>
    if cap = 0 then s
    else if s.inflight.isSome then s
    else startCycle s s.buffer
  | Event.request none cap =>
    if cap = 0 then s
    else if s.inflight.isSome then s
    else startCycle s s.buffer
  | Event.request (some t) cap =>
    if cap ≠ 0 ∧ s.inflight = none then
      startCycle s (s.buffer ++ [t])
    else if bufferCapacity ≤ s.buffer.length then
      { s with outcomes := s.outcomes ++ [(none, PollOutcome.err (capacityError t))] }
    else
      { s with buffer := s.buffer ++ [t] }
  | Event.settle id r =>
    match s.inflight with
    | some i =>
      if i = id then
        { s with
          inflight := none
          outcomes := s.outcomes ++ [(some id, settleOutcome T r)] }
      else s
    | none => s
  | Event.timeoutFire id =>
    match s.inflight with
    | some i =>
      if i = id then
        { s with
          inflight := none
          outcomes := s.outcomes ++
            [(some id, PollOutcome.err (workError T timeoutCause))] }
      else s
    | none => s

/-- Run the poller over a trace of events. -/
def run (bufferCapacity : Nat) (s : PollerState T R) :
    List (Event T R) → PollerState T R
  | [] => s
  | e :: es => run bufferCapacity (step bufferCapacity s e) es

/-- The ids of cycles whose outcome has been emitted, in emission order. -/
def cycleOutcomeIds (s : PollerState T R) : List Nat :=
  s.outcomes.filterMap Prod.fst

/-- The concatenation of all argument lists delivered to `work`, in
invocation order. -/
def deliveredArgs (s : PollerState T R) : List T :=
  (s.invocations.map Prod.snd).flatten

/-- The payloads of requests rejected with a capacity error, in emission
order. -/
def rejectedArgs (s : PollerState T R) : List T :=
  s.outcomes.filterMap fun o =>
    match o.2 with
    | PollOutcome.err e =>
      if e.etype = PollingErrorType.RequestCapacityReached then e.data else none
    | PollOutcome.ok _ => none

/-- The argument payloads carried by the request events of a trace, in
arrival order. -/
def argPayloads : List (Event T R) → List T :=
  List.filterMap fun e =>
    match e with
    | Event.request (some t) _ => some t
    | _ => none

/-- Arrival events: the scheduling triggers (timer ticks and channel
requests), as opposed to settlements and timeout firings. -/
def Event.isArrival : Event T R → Bool
  | Event.tick _ => true
  | Event.request _ _ => true
  | _ => false

/-! ## The steady interval timer

Modelled from the spec (§3, §4.1 interval change handling): the timer keeps
the live `pollInterval` value and the absolute time at which the next steady
tick is due. Time advances in 1 ms steps; a change of the live interval
reschedules the next tick one full new interval after the change. -/

/-- Modelled from the spec: the timer's state — current time (ms), the live
`pollInterval`, and the absolute time of the next scheduled tick. -/
structure TimerState : Type where
  now : Nat
  interval : Nat
  nextTick : Nat
  deriving DecidableEq, Repr

/-- Modelled from the spec: at construction the first steady tick is due one
full `pollInterval` after start (no tick fires at construction time). -/
def initTimer (interval : Nat) : TimerState :=
  ⟨0, interval, interval⟩

/-- Modelled from the spec (§4.1 interval change handling, with
`pollIntervalDelay = 0` as in every shipped test): when the live
`pollInterval` changes, the next steady tick is rescheduled one full new
interval after the change. -/
def setInterval (s : TimerState) (i : Nat) : TimerState :=
  ⟨s.now, i, s.now + i⟩

/-- Advance real time by `n` ms in 1 ms steps, collecting the absolute times
at which the steady tick fired, in order; each firing reschedules the
following tick one interval later. -/
def runTimer : TimerState → Nat → TimerState × List Nat
  | s, 0 => (s, [])
  | s, n + 1 =>
    if s.now + 1 = s.nextTick then
      let q := runTimer ⟨s.now + 1, s.interval, s.now + 1 + s.interval⟩ n
      (q.1, (s.now + 1) :: q.2)
    else
      runTimer ⟨s.now + 1, s.interval, s.nextTick⟩ n

/-! ## Reachability invariant

The well-formedness facts every state reachable from `initialState`
satisfies: invocation ids are issued consecutively from 0; the in-flight id,
when present, is the most recently issued one; and the cycles whose outcome
has been emitted are exactly the started ones apart from the in-flight one,
in id order. -/

/-- Well-formedness of a poller state. -/
structure WF (s : PollerState T R) : Prop where
  ids : s.invocations.map Prod.fst = List.range s.nextId
  inflight_eq : ∀ i, s.inflight = some i → i + 1 = s.nextId
  ocids : cycleOutcomeIds s =
    List.range (s.nextId - (if s.inflight.isSome then 1 else 0))

/-- The id `id` is retired: it was issued in the past and is not, and can
never again be, in flight. Once an invocation's outcome has been emitted (by
settlement or by timeout), its id is retired forever, because ids are issued
by a monotone counter — so a late settlement of a timed-out invocation is
discarded. -/
def Retired (id : Nat) (s : PollerState T R) : Prop :=
  id < s.nextId ∧ ∀ j, s.inflight = some j → id < j

/-! ## Concrete inputs used to exercise the claims -/

/-- Concrete trace: one argument request starts an immediate cycle, which
stays in flight. -/
def trC1 : List (Event Nat Nat) := [Event.request (some 7) 1]

/-- Concrete trace: payload 3 delivered in an immediate cycle, payload 4
buffered while it is in flight, then the cycle settles. -/
def trC2 : List (Event Nat Nat) :=
  [Event.request (some 3) 1, Event.request (some 4) 1,
   Event.settle 0 (Except.ok 0)]

/-- Concrete trace: two cycles with one payload each, the second buffered
while the first is in flight. -/
def trC3 : List (Event Nat Nat) :=
  [Event.request (some 1) 1, Event.request (some 2) 1,
   Event.settle 0 (Except.ok 0), Event.tick 1]

/-- Concrete trace: an argument request starts a cycle that stays in
flight. -/
def trC4 : List (Event Nat Nat) := [Event.request (some 1) 1]

/-- Concrete trace mirroring the shipped buffer-capacity test: capacity 2, a
cycle in flight, payloads 2 and 3 buffered; payload 4 will be the excess
request. -/
def trC5 : List (Event Nat Nat) :=
  [Event.request (some 1) 5, Event.request (some 2) 5,
   Event.request (some 3) 5]

/-- Concrete state: two requests buffered while capacity is zero. -/
def stC6 : PollerState Nat Nat := ⟨[8, 9], none, 3, [], []⟩

/-- Concrete trace: one in-flight cycle, as in the shipped
continues-after-failure test. -/
def trC7 : List (Event Nat Nat) := [Event.tick 1]

/-- Concrete state: one buffered request, no cycle in flight. -/
def stC8 : PollerState Nat Nat := ⟨[5], none, 1, [(0, [])], []⟩

/-- Concrete busy state: a cycle in flight. -/
def stC8b : PollerState Nat Nat := ⟨[5], some 1, 2, [(0, []), (1, [])], []⟩

/-! ### Step-equation lemmas -/

theorem step_tick_zero (C : Nat) (s : PollerState T R) :
    step C s (Event.tick 0) = s := by
  simp [step]

theorem step_tick_busy (C : Nat) {s : PollerState T R} {i : Nat}
    (hin : s.inflight = some i) (cap : Nat) :
    step C s (Event.tick cap) = s := by
  by_cases h0 : cap = 0 <;> simp [step, h0, hin]

theorem step_tick_go (C : Nat) {s : PollerState T R} {cap : Nat}
    (h0 : cap ≠ 0) (hin : s.inflight = none) :
    step C s (Event.tick cap) = startCycle s s.buffer := by
  simp [step, h0, hin]

theorem step_nudge_zero (C : Nat) (s : PollerState T R) :
    step C s (Event.request none 0) = s := by
  simp [step]

theorem step_nudge_busy (C : Nat) {s : PollerState T R} {i : Nat}
    (hin : s.inflight = some i) (cap : Nat) :
    step C s (Event.request none cap) = s := by
  by_cases h0 : cap = 0 <;> simp [step, h0, hin]

theorem step_nudge_go (C : Nat) {s : PollerState T R} {cap : Nat}
    (h0 : cap ≠ 0) (hin : s.inflight = none) :
    step C s (Event.request none cap) = startCycle s s.buffer := by
  simp [step, h0, hin]

theorem step_arg_go (C : Nat) {s : PollerState T R} {cap : Nat}
    (h0 : cap ≠ 0) (hin : s.inflight = none) (t : T) :
    step C s (Event.request (some t) cap) =
      startCycle s (s.buffer ++ [t]) := by
  simp [step, h0, hin]

theorem step_arg_reject (C : Nat) {s : PollerState T R} (t : T) {cap : Nat}
    (hng : ¬(cap ≠ 0 ∧ s.inflight = none)) (hful : C ≤ s.buffer.length) :
    step C s (Event.request (some t) cap) =
      { s with outcomes :=
          s.outcomes ++ [(none, PollOutcome.err (capacityError t))] } := by
  simp only [step, if_neg hng, if_pos hful]

theorem step_arg_buffered (C : Nat) {s : PollerState T R} {cap : Nat} {t : T}
    (hng : ¬(cap ≠ 0 ∧ s.inflight = none)) (hlt : s.buffer.length < C) :
    step C s (Event.request (some t) cap) =
      { s with buffer := s.buffer ++ [t] } := by
  have hful : ¬ C ≤ s.buffer.length := by omega
  simp only [step, if_neg hng, if_neg hful]

theorem step_settle_hit (C : Nat) {s : PollerState T R} {id : Nat}
    (hin : s.inflight = some id) (r : Except String R) :
    step C s (Event.settle id r) =
      { s with
        inflight := none
        outcomes := s.outcomes ++ [(some id, settleOutcome T r)] } := by
  simp [step, hin]

theorem step_settle_miss (C : Nat) {s : PollerState T R} {id : Nat}
    (hin : s.inflight ≠ some id) (r : Except String R) :
    step C s (Event.settle id r) = s := by
  cases h : s.inflight with
  | none => simp [step, h]
  | some i =>
    have : i ≠ id := by rintro rfl; exact hin h
    simp [step, h, this]

theorem step_timeout_hit (C : Nat) {s : PollerState T R} {id : Nat}
    (hin : s.inflight = some id) :
    step C s (Event.timeoutFire id) =
      { s with
        inflight := none
        outcomes := s.outcomes ++
          [(some id, PollOutcome.err (workError T timeoutCause))] } := by
  simp [step, hin]

theorem step_timeout_miss (C : Nat) {s : PollerState T R} {id : Nat}
    (hin : s.inflight ≠ some id) :
    step C s (Event.timeoutFire id) = s := by
  cases h : s.inflight with
  | none => simp [step, h]
  | some i =>
    have : i ≠ id := by rintro rfl; exact hin h
    simp [step, h, this]

theorem wf_initial : WF (initialState T R) := by
  constructor <;> simp [initialState, cycleOutcomeIds]

theorem wf_startCycle {s : PollerState T R} (h : WF s)
    (hin : s.inflight = none) (args : List T) : WF (startCycle s args) := by
  refine ⟨?_, ?_, ?_⟩
  · simp [startCycle, List.range_succ, h.ids]
  · intro i hi
    simp only [startCycle, Option.some.injEq] at hi
    simp [startCycle, hi]
  · have hoc := h.ocids
    simp only [hin, Option.isSome_none, Bool.false_eq_true, if_false,
      Nat.sub_zero] at hoc
    simp only [startCycle, cycleOutcomeIds] at hoc ⊢
    simpa using hoc

theorem cycleOutcomeIds_append_work (s : PollerState T R) (id : Nat)
    (o : PollOutcome T R) :
    cycleOutcomeIds { s with outcomes := s.outcomes ++ [(some id, o)] } =
      cycleOutcomeIds s ++ [id] := by
  simp [cycleOutcomeIds]

theorem cycleOutcomeIds_append_anon (s : PollerState T R)
    (o : PollOutcome T R) :
    cycleOutcomeIds { s with outcomes := s.outcomes ++ [(none, o)] } =
      cycleOutcomeIds s := by
  simp [cycleOutcomeIds]

theorem wf_emit_cycle {s : PollerState T R} (h : WF s) {id : Nat}
    (hin : s.inflight = some id) (o : PollOutcome T R) :
    WF { s with
          inflight := none
          outcomes := s.outcomes ++ [(some id, o)] } := by
  have hnext := h.inflight_eq id hin
  have hoc := h.ocids
  simp only [hin, Option.isSome_some, if_pos] at hoc
  simp only [cycleOutcomeIds] at hoc
  refine ⟨h.ids, ?_, ?_⟩
  · intro j hj; simp at hj
  · simp only [cycleOutcomeIds, Option.isSome_none, Bool.false_eq_true,
      if_false, Nat.sub_zero]
    have h2 : id = s.nextId - 1 := by omega
    rw [List.filterMap_append, hoc, h2]
    have h1 : s.nextId = (s.nextId - 1) + 1 := by omega
    conv_rhs => rw [h1, List.range_succ]
    simp

theorem wf_step (C : Nat) {s : PollerState T R} (h : WF s) (e : Event T R) :
    WF (step C s e) := by
  cases e with
  | tick cap =>
    by_cases h0 : cap = 0
    · subst h0; rw [step_tick_zero]; exact h
    · cases hin : s.inflight with
      | some i => rw [step_tick_busy C hin]; exact h
      | none => rw [step_tick_go C h0 hin]; exact wf_startCycle h hin s.buffer
  | request payload cap =>
    cases payload with
    | none =>
      by_cases h0 : cap = 0
      · subst h0; rw [step_nudge_zero]; exact h
      · cases hin : s.inflight with
        | some i => rw [step_nudge_busy C hin]; exact h
        | none =>
          rw [step_nudge_go C h0 hin]; exact wf_startCycle h hin s.buffer
    | some t =>
      by_cases htrig : cap ≠ 0 ∧ s.inflight = none
      · rw [step_arg_go C htrig.1 htrig.2 t]
        exact wf_startCycle h htrig.2 (s.buffer ++ [t])
      · by_cases hful : C ≤ s.buffer.length
        · rw [step_arg_reject C t htrig hful]
          refine ⟨h.ids, h.inflight_eq, ?_⟩
          rw [cycleOutcomeIds_append_anon]
          exact h.ocids
        · rw [step_arg_buffered C htrig (by omega)]
          refine ⟨h.ids, h.inflight_eq, ?_⟩
          simpa [cycleOutcomeIds] using h.ocids
  | settle id r =>
    by_cases hin : s.inflight = some id
    · rw [step_settle_hit C hin]; exact wf_emit_cycle h hin _
    · rw [step_settle_miss C hin]; exact h
  | timeoutFire id =>
    by_cases hin : s.inflight = some id
    · rw [step_timeout_hit C hin]; exact wf_emit_cycle h hin _
    · rw [step_timeout_miss C hin]; exact h

theorem wf_run (C : Nat) {s : PollerState T R} (h : WF s)
    (es : List (Event T R)) : WF (run C s es) := by
  induction es generalizing s with
  | nil => exact h
  | cons e es ih => exact ih (wf_step C h e)

/-! ### Retired invocation ids -/

theorem retired_startCycle {id : Nat} {s : PollerState T R}
    (h : Retired id s) (args : List T) : Retired id (startCycle s args) := by
  obtain ⟨h1, _⟩ := h
  refine ⟨?_, ?_⟩
  · show id < s.nextId + 1
    omega
  · intro j hj
    simp only [startCycle, Option.some.injEq] at hj
    omega

theorem retired_step (C : Nat) {id : Nat} {s : PollerState T R}
    (h : Retired id s) (e : Event T R) : Retired id (step C s e) := by
  cases e with
  | tick cap =>
    by_cases h0 : cap = 0
    · subst h0; rw [step_tick_zero]; exact h
    · cases hin : s.inflight with
      | some i => rw [step_tick_busy C hin]; exact h
      | none => rw [step_tick_go C h0 hin]; exact retired_startCycle h _
  | request payload cap =>
    cases payload with
    | none =>
      by_cases h0 : cap = 0
      · subst h0; rw [step_nudge_zero]; exact h
      · cases hin : s.inflight with
        | some i => rw [step_nudge_busy C hin]; exact h
        | none => rw [step_nudge_go C h0 hin]; exact retired_startCycle h _
    | some t =>
      by_cases htrig : cap ≠ 0 ∧ s.inflight = none
      · rw [step_arg_go C htrig.1 htrig.2 t]; exact retired_startCycle h _
      · by_cases hful : C ≤ s.buffer.length
        · rw [step_arg_reject C t htrig hful]
          exact ⟨h.1, fun j hj => h.2 j hj⟩
        · rw [step_arg_buffered C htrig (by omega)]
          exact ⟨h.1, fun j hj => h.2 j hj⟩
  | settle id' r =>
    by_cases hin : s.inflight = some id'
    · rw [step_settle_hit C hin]
      exact ⟨h.1, fun j hj => by simp at hj⟩
    · rw [step_settle_miss C hin]; exact h
  | timeoutFire id' =>
    by_cases hin : s.inflight = some id'
    · rw [step_timeout_hit C hin]
      exact ⟨h.1, fun j hj => by simp at hj⟩
    · rw [step_timeout_miss C hin]; exact h

theorem retired_run (C : Nat) {id : Nat} {s : PollerState T R}
    (h : Retired id s) (es : List (Event T R)) : Retired id (run C s es) := by
  induction es generalizing s with
  | nil => exact h
  | cons e es ih => exact ih (retired_step C h e)

/-- A settlement for a retired id is discarded: the state is unchanged and
nothing is emitted. -/
theorem settle_retired (C : Nat) {id : Nat} {s : PollerState T R}
    (h : Retired id s) (r : Except String R) :
    step C s (Event.settle id r) = s := by
  refine step_settle_miss C ?_ r
  intro hin
  exact absurd (h.2 id hin) (by omega)

/-! ### Conservation of argument requests

Every argument payload that ever arrived sits in exactly one of three
places: delivered to some `work` invocation, still buffered, or rejected
with a capacity error. -/

theorem startCycle_buffer (s : PollerState T R) (args : List T) :
    (startCycle s args).buffer = [] := rfl

theorem startCycle_inflight (s : PollerState T R) (args : List T) :
    (startCycle s args).inflight = some s.nextId := rfl

theorem startCycle_nextId (s : PollerState T R) (args : List T) :
    (startCycle s args).nextId = s.nextId + 1 := rfl

theorem startCycle_invocations (s : PollerState T R) (args : List T) :
    (startCycle s args).invocations = s.invocations ++ [(s.nextId, args)] :=
  rfl

theorem startCycle_outcomes (s : PollerState T R) (args : List T) :
    (startCycle s args).outcomes = s.outcomes := rfl

theorem deliveredArgs_startCycle (s : PollerState T R) (args : List T) :
    deliveredArgs (startCycle s args) = deliveredArgs s ++ args := by
  simp [deliveredArgs, startCycle]

theorem rejectedArgs_startCycle (s : PollerState T R) (args : List T) :
    rejectedArgs (startCycle s args) = rejectedArgs s := rfl

theorem rejectedArgs_append_cap (s : PollerState T R) (t : T) :
    rejectedArgs { s with outcomes :=
        s.outcomes ++ [(none, PollOutcome.err (capacityError t))] } =
      rejectedArgs s ++ [t] := by
  simp [rejectedArgs, capacityError, List.filterMap_append]

theorem rejectedArgs_append_settle (s : PollerState T R) (id : Nat)
    (r : Except String R) :
    rejectedArgs { s with
        inflight := none
        outcomes := s.outcomes ++ [(some id, settleOutcome T r)] } =
      rejectedArgs s := by
  cases r <;>
    simp [rejectedArgs, settleOutcome, workError, List.filterMap_append]

theorem rejectedArgs_append_timeout (s : PollerState T R) (id : Nat) :
    rejectedArgs { s with
        inflight := none
        outcomes := s.outcomes ++
          [(some id, PollOutcome.err (workError T timeoutCause))] } =
      rejectedArgs s := by
  simp [rejectedArgs, workError, List.filterMap_append]

theorem argPayloads_cons (e : Event T R) (es : List (Event T R)) :
    argPayloads (e :: es) = argPayloads [e] ++ argPayloads es := by
  cases e with
  | request payload cap => cases payload <;> simp [argPayloads]
  | tick cap => simp [argPayloads]
  | settle id r => simp [argPayloads]
  | timeoutFire id => simp [argPayloads]

theorem count_step [DecidableEq T] (C : Nat) (s : PollerState T R)
    (e : Event T R) (t : T) :
    (deliveredArgs (step C s e)).count t + ((step C s e).buffer).count t +
        (rejectedArgs (step C s e)).count t =
      (deliveredArgs s).count t + s.buffer.count t +
        (rejectedArgs s).count t + (argPayloads [e]).count t := by
  cases e with
  | tick cap =>
    by_cases h0 : cap = 0
    · subst h0; rw [step_tick_zero]; simp [argPayloads]
    · cases hin : s.inflight with
      | some i => rw [step_tick_busy C hin]; simp [argPayloads]
      | none =>
        rw [step_tick_go C h0 hin, deliveredArgs_startCycle,
          rejectedArgs_startCycle, startCycle_buffer]
        simp [argPayloads, List.count_append]
  | request payload cap =>
    cases payload with
    | none =>
      by_cases h0 : cap = 0
      · subst h0; rw [step_nudge_zero]; simp [argPayloads]
      · cases hin : s.inflight with
        | some i => rw [step_nudge_busy C hin]; simp [argPayloads]
        | none =>
          rw [step_nudge_go C h0 hin, deliveredArgs_startCycle,
            rejectedArgs_startCycle, startCycle_buffer]
          simp [argPayloads, List.count_append]
    | some u =>
      by_cases htrig : cap ≠ 0 ∧ s.inflight = none
      · rw [step_arg_go C htrig.1 htrig.2 u, deliveredArgs_startCycle,
          rejectedArgs_startCycle, startCycle_buffer]
        simp [argPayloads, List.count_append]
        omega
      · by_cases hful : C ≤ s.buffer.length
        · rw [step_arg_reject C u htrig hful]
          have hrej := rejectedArgs_append_cap s u
          simp only [deliveredArgs, rejectedArgs, argPayloads] at hrej ⊢
          simp [hrej, List.count_append]
          omega
        · rw [step_arg_buffered C htrig (by omega)]
          simp [deliveredArgs, rejectedArgs, argPayloads, List.count_append]
          omega
  | settle id r =>
    by_cases hin : s.inflight = some id
    · rw [step_settle_hit C hin]
      have hrej := rejectedArgs_append_settle s id r
      simp only [deliveredArgs, rejectedArgs, argPayloads] at hrej ⊢
      simp [hrej]
    · rw [step_settle_miss C hin]; simp [argPayloads]
  | timeoutFire id =>
    by_cases hin : s.inflight = some id
    · rw [step_timeout_hit C hin]
      have hrej := rejectedArgs_append_timeout s id
      simp only [deliveredArgs, rejectedArgs, argPayloads] at hrej ⊢
      simp [hrej]
    · rw [step_timeout_miss C hin]; simp [argPayloads]

theorem count_run [DecidableEq T] (C : Nat) (s0 : PollerState T R)
    (es : List (Event T R)) (t : T) :
    (deliveredArgs (run C s0 es)).count t + ((run C s0 es).buffer).count t +
        (rejectedArgs (run C s0 es)).count t =
      (deliveredArgs s0).count t + s0.buffer.count t +
        (rejectedArgs s0).count t + (argPayloads es).count t := by
  induction es generalizing s0 with
  | nil => simp [run, argPayloads]
  | cons e es ih =>
    simp only [run]
    rw [ih (step C s0 e), count_step C s0 e t]
    have hsplit : (argPayloads (e :: es)).count t =
        (argPayloads ([e] : List (Event T R))).count t +
          (argPayloads es).count t := by
      rw [argPayloads_cons e es, List.count_append]
    omega

/-! ### Order preservation

The delivered-then-buffered payload sequence is always a subsequence of the
arrival sequence: arrival order is preserved into `work` argument lists. -/

theorem delivered_buffer_step (C : Nat) (s : PollerState T R)
    (e : Event T R) :
    ∃ v : List T,
      deliveredArgs (step C s e) ++ (step C s e).buffer =
        (deliveredArgs s ++ s.buffer) ++ v ∧
      v.Sublist (argPayloads [e]) := by
  cases e with
  | tick cap =>
    by_cases h0 : cap = 0
    · subst h0; rw [step_tick_zero]; exact ⟨[], by simp, List.nil_sublist _⟩
    · cases hin : s.inflight with
      | some i =>
        rw [step_tick_busy C hin]; exact ⟨[], by simp, List.nil_sublist _⟩
      | none =>
        rw [step_tick_go C h0 hin, deliveredArgs_startCycle, startCycle_buffer]
        exact ⟨[], by simp, List.nil_sublist _⟩
  | request payload cap =>
    cases payload with
    | none =>
      by_cases h0 : cap = 0
      · subst h0; rw [step_nudge_zero]; exact ⟨[], by simp, List.nil_sublist _⟩
      · cases hin : s.inflight with
        | some i =>
          rw [step_nudge_busy C hin]; exact ⟨[], by simp, List.nil_sublist _⟩
        | none =>
          rw [step_nudge_go C h0 hin, deliveredArgs_startCycle,
            startCycle_buffer]
          exact ⟨[], by simp, List.nil_sublist _⟩
    | some u =>
      by_cases htrig : cap ≠ 0 ∧ s.inflight = none
      · rw [step_arg_go C htrig.1 htrig.2 u, deliveredArgs_startCycle,
          startCycle_buffer]
        exact ⟨[u], by simp, by simp [argPayloads]⟩
      · by_cases hful : C ≤ s.buffer.length
        · rw [step_arg_reject C u htrig hful]
          exact ⟨[], by simp [deliveredArgs], List.nil_sublist _⟩
        · rw [step_arg_buffered C htrig (by omega)]
          refine ⟨[u], ?_, by simp [argPayloads]⟩
          simp [deliveredArgs]
  | settle id r =>
    by_cases hin : s.inflight = some id
    · rw [step_settle_hit C hin]
      exact ⟨[], by simp [deliveredArgs], List.nil_sublist _⟩
    · rw [step_settle_miss C hin]; exact ⟨[], by simp, List.nil_sublist _⟩
  | timeoutFire id =>
    by_cases hin : s.inflight = some id
    · rw [step_timeout_hit C hin]
      exact ⟨[], by simp [deliveredArgs], List.nil_sublist _⟩
    · rw [step_timeout_miss C hin]; exact ⟨[], by simp, List.nil_sublist _⟩

theorem delivered_buffer_run (C : Nat) (s0 : PollerState T R)
    (es : List (Event T R)) :
    ∃ v : List T,
      deliveredArgs (run C s0 es) ++ (run C s0 es).buffer =
        (deliveredArgs s0 ++ s0.buffer) ++ v ∧
      v.Sublist (argPayloads es) := by
  induction es generalizing s0 with
  | nil => exact ⟨[], by simp [run], by simp [argPayloads]⟩
  | cons e es ih =>
    obtain ⟨v1, hv1, hs1⟩ := delivered_buffer_step C s0 e
    obtain ⟨v2, hv2, hs2⟩ := ih (step C s0 e)
    refine ⟨v1 ++ v2, ?_, ?_⟩
    · simp only [run]
      rw [hv2, hv1, List.append_assoc]
    · rw [argPayloads_cons]
      exact List.Sublist.append hs1 hs2

/-! ### Timer lemmas -/

theorem runTimer_skip {s : TimerState} (n : Nat)
    (h : ¬ s.now + 1 = s.nextTick) :
    runTimer s (n + 1) = runTimer ⟨s.now + 1, s.interval, s.nextTick⟩ n := by
  simp [runTimer, h]

theorem runTimer_hit {s : TimerState} (n : Nat)
    (h : s.now + 1 = s.nextTick) :
    runTimer s (n + 1) =
      ((runTimer ⟨s.now + 1, s.interval, s.now + 1 + s.interval⟩ n).1,
       (s.now + 1) ::
         (runTimer ⟨s.now + 1, s.interval, s.now + 1 + s.interval⟩ n).2) := by
  simp [runTimer, h]

theorem runTimer_before_fire :
    ∀ (n : Nat) (s : TimerState) (k : Nat), s.nextTick = s.now + k → n < k →
      runTimer s n = (⟨s.now + n, s.interval, s.nextTick⟩, []) := by
  intro n
  induction n with
  | zero =>
    intro s k _ _
    cases s
    simp [runTimer]
  | succ n ih =>
    intro s k hk hn
    have hne : ¬ (s.now + 1 = s.nextTick) := by omega
    rw [runTimer_skip n hne,
      ih ⟨s.now + 1, s.interval, s.nextTick⟩ (k - 1)
        (show s.nextTick = (s.now + 1) + (k - 1) by omega) (by omega)]
    have h2 : s.now + 1 + n = s.now + (n + 1) := by omega
    simp only []
    rw [h2]

theorem runTimer_fire :
    ∀ (k : Nat) (s : TimerState), 1 ≤ k → s.nextTick = s.now + k →
      runTimer s k =
        (⟨s.now + k, s.interval, s.now + k + s.interval⟩, [s.now + k]) := by
  intro k
  induction k with
  | zero => intro s h1 _; exact absurd h1 (by omega)
  | succ k ih =>
    intro s h1 hk
    rcases Nat.eq_zero_or_pos k with h0 | hpos
    · subst h0
      have hf : s.now + 1 = s.nextTick := by omega
      rw [runTimer_hit 0 hf]
      simp [runTimer]
    · have hne : ¬ (s.now + 1 = s.nextTick) := by omega
      rw [runTimer_skip k hne,
        ih ⟨s.now + 1, s.interval, s.nextTick⟩ hpos
          (show s.nextTick = (s.now + 1) + k by omega)]
      have h2 : s.now + 1 + k = s.now + (k + 1) := by omega
      simp only []
      rw [h2]

/-! ### Resumption lemmas -/

theorem resume_after_free (C : Nat) {s1 : PollerState T R}
    (hf : s1.inflight = none) {cap : Nat} (hcap : cap ≠ 0) :
    (step C s1 (Event.tick cap)).invocations =
      s1.invocations ++ [(s1.nextId, s1.buffer)] := by
  rw [step_tick_go C hcap hf, startCycle_invocations]

theorem settle_then_resume (C : Nat) {s1 : PollerState T R} {j : Nat}
    (hin : s1.inflight = some j) (r : Except String R) {cap : Nat}
    (hcap : cap ≠ 0) :
    (step C (step C s1 (Event.settle j r)) (Event.tick cap)).invocations =
      s1.invocations ++ [(s1.nextId, s1.buffer)] := by
  rw [step_settle_hit C hin r]
  exact resume_after_free C rfl hcap

theorem resume_and_succeed (C : Nat) {s1 : PollerState T R}
    (hf : s1.inflight = none) {cap : Nat} (hcap : cap ≠ 0) (v : R) :
    (step C (step C s1 (Event.tick cap))
        (Event.settle s1.nextId (Except.ok v))).outcomes =
      s1.outcomes ++ [(some s1.nextId, PollOutcome.ok v)] := by
  rw [step_tick_go C hcap hf]
  rw [step_settle_hit C
    (show (startCycle s1 s1.buffer).inflight = some s1.nextId from rfl)
    (Except.ok v)]
  simp [startCycle, settleOutcome]

/-! ## The claims -/

/-- C1: strict serialization of work. In every state reachable by a sequence
of ticks and requests, at most one `work` invocation is outstanding (the
number of started invocations exceeds the number of emitted cycle outcomes
by at most one); a tick or request arriving while an invocation is in flight
starts no new invocation; and once the in-flight invocation settles, the
next eligible tick starts the next cycle with exactly the accumulated
buffered requests. -/
theorem claim_serialization {T R : Type} (C : Nat) (es : List (Event T R))
    (s : PollerState T R) (hs : s = run C (initialState T R) es) :
    s.invocations.length ≤ (cycleOutcomeIds s).length + 1 ∧
    (∀ e : Event T R, e.isArrival = true → s.inflight.isSome = true →
      (step C s e).invocations = s.invocations) ∧
    (∀ id r cap, cap ≠ 0 → s.inflight = some id →
      (step C (step C s (Event.settle id r)) (Event.tick cap)).invocations =
        s.invocations ++ [(s.nextId, s.buffer)]) := by
  have hwf : WF s := hs ▸ wf_run C wf_initial es
  refine ⟨?_, ?_, ?_⟩
  · have h1 : s.invocations.length = s.nextId := by
      simpa using congrArg List.length hwf.ids
    have h2 : (cycleOutcomeIds s).length =
        s.nextId - (if s.inflight.isSome then 1 else 0) := by
      rw [hwf.ocids]; simp
    rw [h1, h2]
    split <;> omega
  · intro e harr hin
    obtain ⟨i, hi⟩ := Option.isSome_iff_exists.mp hin
    cases e with
    | tick cap => rw [step_tick_busy C hi]
    | request payload cap =>
      cases payload with
      | none => rw [step_nudge_busy C hi]
      | some u =>
        have htrig : ¬(cap ≠ 0 ∧ s.inflight = none) := by
          rintro ⟨-, h⟩
          rw [h] at hi
          cases hi
        by_cases hful : C ≤ s.buffer.length
        · rw [step_arg_reject C u htrig hful]
        · rw [step_arg_buffered C htrig (by omega)]
    | settle id r => simp [Event.isArrival] at harr
    | timeoutFire id => simp [Event.isArrival] at harr
  · intro id r cap hcap hin
    exact settle_then_resume C hin r hcap

theorem claim_serialization_witness :
    (run 2 (initialState Nat Nat) trC1).invocations.length ≤
      (cycleOutcomeIds (run 2 (initialState Nat Nat) trC1)).length + 1 ∧
    (step 2 (run 2 (initialState Nat Nat) trC1) (Event.tick 1)).invocations =
      (run 2 (initialState Nat Nat) trC1).invocations ∧
    (step 2 (step 2 (run 2 (initialState Nat Nat) trC1)
        (Event.settle 0 (Except.ok 5))) (Event.tick 1)).invocations =
      (run 2 (initialState Nat Nat) trC1).invocations ++
        [((run 2 (initialState Nat Nat) trC1).nextId,
          (run 2 (initialState Nat Nat) trC1).buffer)] := by
  have h := claim_serialization 2 trC1 _ rfl
  exact ⟨h.1, h.2.1 (Event.tick 1) rfl rfl,
    h.2.2 0 (Except.ok 5) 1 (by decide) rfl⟩

/-- C2: exactly-once request disposition. In every reachable state, every
argument payload that ever arrived is accounted for exactly once across the
three pools: delivered to a `work` invocation, still buffered, or rejected
with a capacity error (never both, never neither); and the buffered requests
are delivered in a single invocation at the next eligible tick. -/
theorem claim_exactly_once {T R : Type} [DecidableEq T] (C : Nat)
    (es : List (Event T R)) (s : PollerState T R)
    (hs : s = run C (initialState T R) es) (t : T) :
    (deliveredArgs s).count t + s.buffer.count t + (rejectedArgs s).count t =
      (argPayloads es).count t ∧
    (∀ cap, cap ≠ 0 → s.inflight = none →
      (step C s (Event.tick cap)).invocations =
        s.invocations ++ [(s.nextId, s.buffer)]) := by
  subst hs
  refine ⟨?_, ?_⟩
  · have h := count_run C (initialState T R) es t
    simpa [initialState, deliveredArgs, rejectedArgs] using h
  · intro cap hcap hin
    rw [step_tick_go C hcap hin, startCycle_invocations]

theorem claim_exactly_once_witness :
    (deliveredArgs (run 2 (initialState Nat Nat) trC2)).count 3 +
        (run 2 (initialState Nat Nat) trC2).buffer.count 3 +
        (rejectedArgs (run 2 (initialState Nat Nat) trC2)).count 3 =
      (argPayloads trC2).count 3 ∧
    (step 2 (run 2 (initialState Nat Nat) trC2) (Event.tick 1)).invocations =
      (run 2 (initialState Nat Nat) trC2).invocations ++
        [((run 2 (initialState Nat Nat) trC2).nextId,
          (run 2 (initialState Nat Nat) trC2).buffer)] := by
  have h := claim_exactly_once 2 trC2 _ rfl 3
  exact ⟨h.1, h.2 1 (by decide) rfl⟩

/-- C3: ordering. In every reachable state the payloads delivered to `work`
(in invocation order) followed by the still-buffered ones form a subsequence
of the arrival sequence (arrival order is preserved within and across
cycles); cycle outcomes are emitted in cycle-start order `0, 1, 2, …`;
invocations start in id order; and whenever cycle `k + 1` has started, cycle
`k`'s outcome has already been emitted. -/
theorem claim_ordering {T R : Type} (C : Nat) (es : List (Event T R))
    (s : PollerState T R) (hs : s = run C (initialState T R) es) :
    (deliveredArgs s ++ s.buffer).Sublist (argPayloads es) ∧
    cycleOutcomeIds s = List.range (cycleOutcomeIds s).length ∧
    s.invocations.map Prod.fst = List.range s.invocations.length ∧
    (∀ k, k + 2 ≤ s.nextId → k ∈ cycleOutcomeIds s) := by
  have hwf : WF s := hs ▸ wf_run C wf_initial es
  refine ⟨?_, ?_, ?_, ?_⟩
  · obtain ⟨v, hv, hsub⟩ := delivered_buffer_run C (initialState T R) es
    subst hs
    rw [hv]
    simpa [initialState, deliveredArgs] using hsub
  · rw [hwf.ocids]
    simp
  · have hlen : s.invocations.length = s.nextId := by
      simpa using congrArg List.length hwf.ids
    rw [hwf.ids, hlen]
  · intro k hk
    rw [hwf.ocids]
    simp only [List.mem_range]
    have hfl : (if s.inflight.isSome then 1 else 0) ≤ 1 := by
      split <;> omega
    omega

theorem claim_ordering_witness :
    (deliveredArgs (run 2 (initialState Nat Nat) trC3) ++
        (run 2 (initialState Nat Nat) trC3).buffer).Sublist
      (argPayloads trC3) ∧
    cycleOutcomeIds (run 2 (initialState Nat Nat) trC3) =
      List.range (cycleOutcomeIds (run 2 (initialState Nat Nat) trC3)).length ∧
    (run 2 (initialState Nat Nat) trC3).invocations.map Prod.fst =
      List.range (run 2 (initialState Nat Nat) trC3).invocations.length ∧
    0 ∈ cycleOutcomeIds (run 2 (initialState Nat Nat) trC3) := by
  have h := claim_ordering 2 trC3 _ rfl
  exact ⟨h.1, h.2.1, h.2.2.1, h.2.2.2 0 (by decide)⟩

/-- C4: timeout semantics. If a reachable state has invocation `id` in
flight and its `workTimeout` fires before it settles, the poller emits a
`WorkError` whose message indicates a timeout, with no associated request;
the scheduling slot is freed, so the next tick with capacity starts a new
cycle; and any later settlement of the timed-out invocation — at any point
in the future — is discarded entirely (in particular its value is never
emitted as a success). -/
theorem claim_timeout {T R : Type} (C : Nat) (es : List (Event T R))
    (s : PollerState T R) (hs : s = run C (initialState T R) es)
    (id : Nat) (hin : s.inflight = some id) :
    (step C s (Event.timeoutFire id)).outcomes =
      s.outcomes ++ [(some id, PollOutcome.err
        ⟨"Failed to poll for work: Error: work has timed out",
         PollingErrorType.WorkError, none⟩)] ∧
    (step C s (Event.timeoutFire id)).inflight = none ∧
    (∀ cap, cap ≠ 0 →
      (step C (step C s (Event.timeoutFire id)) (Event.tick cap)).invocations =
        s.invocations ++ [(s.nextId, s.buffer)]) ∧
    (∀ es2 r, step C (run C (step C s (Event.timeoutFire id)) es2)
        (Event.settle id r) =
      run C (step C s (Event.timeoutFire id)) es2) := by
  have hwf : WF s := hs ▸ wf_run C wf_initial es
  have hnext := hwf.inflight_eq id hin
  refine ⟨?_, ?_, ?_, ?_⟩
  · rw [step_timeout_hit C hin]
    rfl
  · rw [step_timeout_hit C hin]
  · intro cap hcap
    rw [step_timeout_hit C hin]
    exact resume_after_free C rfl hcap
  · intro es2 r
    have hret : Retired id (step C s (Event.timeoutFire id)) := by
      rw [step_timeout_hit C hin]
      refine ⟨?_, ?_⟩
      · show id < s.nextId
        omega
      · intro j hj
        simp at hj
    exact settle_retired C (retired_run C hret es2) r

theorem claim_timeout_witness :
    (step 2 (run 2 (initialState Nat Nat) trC4)
        (Event.timeoutFire 0)).outcomes =
      (run 2 (initialState Nat Nat) trC4).outcomes ++
        [(some 0, PollOutcome.err
          ⟨"Failed to poll for work: Error: work has timed out",
           PollingErrorType.WorkError, none⟩)] ∧
    (step 2 (run 2 (initialState Nat Nat) trC4)
        (Event.timeoutFire 0)).inflight = none ∧
    (step 2 (step 2 (run 2 (initialState Nat Nat) trC4)
        (Event.timeoutFire 0)) (Event.tick 1)).invocations =
      (run 2 (initialState Nat Nat) trC4).invocations ++
        [((run 2 (initialState Nat Nat) trC4).nextId,
          (run 2 (initialState Nat Nat) trC4).buffer)] ∧
    step 2 (run 2 (step 2 (run 2 (initialState Nat Nat) trC4)
        (Event.timeoutFire 0)) []) (Event.settle 0 (Except.ok 9)) =
      run 2 (step 2 (run 2 (initialState Nat Nat) trC4)
        (Event.timeoutFire 0)) [] := by
  have h := claim_timeout 2 trC4 _ rfl 0 rfl
  exact ⟨h.1, h.2.1, h.2.2.1 1 (by decide), h.2.2.2 [] (Except.ok 9)⟩

/-- C5: buffer overflow. In a reachable state with a cycle in flight and the
buffer holding exactly `bufferCapacity` requests, an incoming argument
request is rejected immediately with a `RequestCapacityReached` error
carrying that exact request: the buffer is unchanged (the newest request is
the one rejected, and is not stored), no invocation starts, and after the
in-flight cycle settles, the next tick delivers the `bufferCapacity`
already-buffered requests together in one invocation. -/
theorem claim_buffer_overflow {T R : Type} (Cap : Nat)
    (es : List (Event T R)) (s : PollerState T R)
    (_hs : s = run Cap (initialState T R) es) (j : Nat)
    (hin : s.inflight = some j) (hful : s.buffer.length = Cap)
    (t : T) (cap : Nat) :
    (step Cap s (Event.request (some t) cap)).buffer = s.buffer ∧
    (step Cap s (Event.request (some t) cap)).outcomes =
      s.outcomes ++ [(none, PollOutcome.err
        ⟨"Failed to poll for work: request capacity reached",
         PollingErrorType.RequestCapacityReached, some t⟩)] ∧
    (step Cap s (Event.request (some t) cap)).invocations = s.invocations ∧
    (∀ r cap2, cap2 ≠ 0 →
      (step Cap (step Cap (step Cap s (Event.request (some t) cap))
          (Event.settle j r)) (Event.tick cap2)).invocations =
        s.invocations ++ [(s.nextId, s.buffer)]) := by
  have htrig : ¬(cap ≠ 0 ∧ s.inflight = none) := by
    rintro ⟨-, h⟩
    rw [h] at hin
    cases hin
  have hge : Cap ≤ s.buffer.length := le_of_eq hful.symm
  have e1 := step_arg_reject Cap t htrig hge
  refine ⟨?_, ?_, ?_, ?_⟩
  · rw [e1]
  · rw [e1]
    rfl
  · rw [e1]
  · intro r cap2 hcap2
    rw [e1]
    refine settle_then_resume Cap ?_ r hcap2
    exact hin

theorem claim_buffer_overflow_witness :
    (step 2 (run 2 (initialState Nat Nat) trC5)
        (Event.request (some 4) 5)).buffer =
      (run 2 (initialState Nat Nat) trC5).buffer ∧
    (step 2 (run 2 (initialState Nat Nat) trC5)
        (Event.request (some 4) 5)).outcomes =
      (run 2 (initialState Nat Nat) trC5).outcomes ++
        [(none, PollOutcome.err
          ⟨"Failed to poll for work: request capacity reached",
           PollingErrorType.RequestCapacityReached, some 4⟩)] ∧
    (step 2 (run 2 (initialState Nat Nat) trC5)
        (Event.request (some 4) 5)).invocations =
      (run 2 (initialState Nat Nat) trC5).invocations ∧
    (step 2 (step 2 (step 2 (run 2 (initialState Nat Nat) trC5)
        (Event.request (some 4) 5)) (Event.settle 0 (Except.ok 0)))
        (Event.tick 5)).invocations =
      (run 2 (initialState Nat Nat) trC5).invocations ++
        [((run 2 (initialState Nat Nat) trC5).nextId,
          (run 2 (initialState Nat Nat) trC5).buffer)] := by
  have h := claim_buffer_overflow 2 trC5 _ rfl 0 rfl rfl 4 5
  exact ⟨h.1, h.2.1, h.2.2.1, h.2.2.2 (Except.ok 0) 5 (by decide)⟩

/-- C6: capacity gating. A tick at which `getCapacity()` returns 0 leaves
the poller state entirely unchanged — no invocation starts, no outcome is
emitted, and the buffered argument requests remain queued — for arbitrarily
many consecutive zero-capacity ticks; and at the first tick with positive
capacity and no cycle in flight, polling resumes: a cycle starts carrying
exactly the buffered requests. -/
theorem claim_capacity_gating {T R : Type} (C : Nat) (s : PollerState T R) :
    (∀ n : Nat, run C s (List.replicate n (Event.tick 0)) = s) ∧
    (∀ cap, cap ≠ 0 → s.inflight = none →
      (step C s (Event.tick cap)).invocations =
        s.invocations ++ [(s.nextId, s.buffer)] ∧
      (step C s (Event.tick cap)).buffer = []) := by
  constructor
  · intro n
    induction n with
    | zero => rfl
    | succ n ih =>
      rw [List.replicate_succ]
      simp only [run, step_tick_zero]
      exact ih
  · intro cap hcap hin
    rw [step_tick_go C hcap hin]
    exact ⟨startCycle_invocations s s.buffer, startCycle_buffer s s.buffer⟩

theorem claim_capacity_gating_witness :
    run 2 stC6 (List.replicate 4 (Event.tick 0)) = stC6 ∧
    (step 2 stC6 (Event.tick 1)).invocations =
      stC6.invocations ++ [(stC6.nextId, stC6.buffer)] ∧
    (step 2 stC6 (Event.tick 1)).buffer = [] := by
  have h := claim_capacity_gating 2 stC6
  exact ⟨h.1 4, (h.2 1 (by decide) rfl).1, (h.2 1 (by decide) rfl).2⟩

/-- C7: failure recovery. When the in-flight `work` invocation of a
reachable state rejects with some cause, the poller emits a `WorkError`
value wrapping that cause with no associated request (it is reported, not
thrown); the rejected invocation can never emit anything again (its own
return value is never emitted as a success); and the poller keeps going: the
next tick with capacity starts a new cycle, and when that cycle settles
successfully its success value is emitted. -/
theorem claim_failure_recovery {T R : Type} (C : Nat) (es : List (Event T R))
    (s : PollerState T R) (hs : s = run C (initialState T R) es)
    (id : Nat) (cause : String) (hin : s.inflight = some id) :
    (step C s (Event.settle id (Except.error cause))).outcomes =
      s.outcomes ++ [(some id, PollOutcome.err
        ⟨"Failed to poll for work: " ++ cause,
         PollingErrorType.WorkError, none⟩)] ∧
    (step C s (Event.settle id (Except.error cause))).inflight = none ∧
    (∀ es2 r, step C (run C (step C s
        (Event.settle id (Except.error cause))) es2) (Event.settle id r) =
      run C (step C s (Event.settle id (Except.error cause))) es2) ∧
    (∀ cap v, cap ≠ 0 →
      (step C (step C (step C s (Event.settle id (Except.error cause)))
          (Event.tick cap)) (Event.settle s.nextId (Except.ok v))).outcomes =
        s.outcomes ++ [(some id, PollOutcome.err
          ⟨"Failed to poll for work: " ++ cause,
           PollingErrorType.WorkError, none⟩),
          (some s.nextId, PollOutcome.ok v)]) := by
  have hwf : WF s := hs ▸ wf_run C wf_initial es
  have hnext := hwf.inflight_eq id hin
  have e1 := step_settle_hit C hin (Except.error cause)
  refine ⟨?_, ?_, ?_, ?_⟩
  · rw [e1]
    rfl
  · rw [e1]
  · intro es2 r
    have hret : Retired id (step C s (Event.settle id (Except.error cause))) := by
      rw [e1]
      refine ⟨?_, ?_⟩
      · show id < s.nextId
        omega
      · intro j hj
        simp at hj
    exact settle_retired C (retired_run C hret es2) r
  · intro cap v hcap
    rw [e1]
    refine Eq.trans (resume_and_succeed C rfl hcap v) ?_
    simp [settleOutcome, workError]

theorem claim_failure_recovery_witness :
    (step 2 (run 2 (initialState Nat Nat) trC7)
        (Event.settle 0 (Except.error "failed to work"))).outcomes =
      (run 2 (initialState Nat Nat) trC7).outcomes ++
        [(some 0, PollOutcome.err
          ⟨"Failed to poll for work: " ++ "failed to work",
           PollingErrorType.WorkError, none⟩)] ∧
    (step 2 (step 2 (step 2 (run 2 (initialState Nat Nat) trC7)
        (Event.settle 0 (Except.error "failed to work"))) (Event.tick 1))
        (Event.settle (run 2 (initialState Nat Nat) trC7).nextId
          (Except.ok 3))).outcomes =
      (run 2 (initialState Nat Nat) trC7).outcomes ++
        [(some 0, PollOutcome.err
          ⟨"Failed to poll for work: " ++ "failed to work",
           PollingErrorType.WorkError, none⟩),
         (some (run 2 (initialState Nat Nat) trC7).nextId,
          PollOutcome.ok 3)] := by
  have h := claim_failure_recovery 2 trC7 _ rfl 0 "failed to work" rfl
  exact ⟨h.1, h.2.2.2 1 3 (by decide)⟩

/-- C8: nudge semantics. A payload-less (nudge) request arriving with
positive capacity and no cycle in flight immediately starts a cycle — the
step on the request event itself, with no timer tick involved — draining the
buffer; a nudge arriving with zero capacity, or while a cycle is in flight,
leaves the state entirely unchanged: it is dropped without emitting any
error and is never buffered. -/
theorem claim_nudge {T R : Type} (C : Nat) (s : PollerState T R) :
    (∀ cap, cap ≠ 0 → s.inflight = none →
      step C s (Event.request none cap) = startCycle s s.buffer ∧
      (step C s (Event.request none cap)).invocations =
        s.invocations ++ [(s.nextId, s.buffer)]) ∧
    step C s (Event.request none 0) = s ∧
    (∀ cap i, s.inflight = some i → step C s (Event.request none cap) = s) := by
  refine ⟨?_, step_nudge_zero C s, ?_⟩
  · intro cap hcap hin
    rw [step_nudge_go C hcap hin]
    exact ⟨rfl, startCycle_invocations s s.buffer⟩
  · intro cap i hin
    exact step_nudge_busy C hin cap

theorem claim_nudge_witness :
    step 2 stC8 (Event.request none 1) = startCycle stC8 stC8.buffer ∧
    step 2 stC8 (Event.request none 0) = stC8 ∧
    step 2 stC8b (Event.request none 1) = stC8b := by
  exact ⟨((claim_nudge 2 stC8).1 1 (by decide) rfl).1,
    (claim_nudge 2 stC8).2.1,
    (claim_nudge 2 stC8b).2.2 1 1 rfl⟩

/-- C9: interval reconfiguration. Whenever the live `pollInterval` changes
to a new value `i` (larger or smaller than before), the next steady tick
fires exactly `i` ms after the change — no tick fires earlier — and steady
ticking then continues at the new interval (the following tick is scheduled
another `i` ms later). -/
theorem claim_interval_change (s : TimerState) (i : Nat) (hi : 1 ≤ i) :
    (∀ n, n < i → (runTimer (setInterval s i) n).2 = []) ∧
    runTimer (setInterval s i) i =
      (⟨s.now + i, i, s.now + i + i⟩, [s.now + i]) := by
  constructor
  · intro n hn
    rw [runTimer_before_fire n (setInterval s i) i rfl hn]
  · exact runTimer_fire i (setInterval s i) hi rfl

theorem claim_interval_change_witness :
    (runTimer (setInterval ⟨100, 100, 200⟩ 200) 100).2 = [] ∧
    runTimer (setInterval ⟨100, 100, 200⟩ 200) 200 =
      (⟨300, 200, 500⟩, [300]) := by
  have h := claim_interval_change ⟨100, 100, 200⟩ 200 (by decide)
  exact ⟨h.1 100 (by decide), h.2⟩

/-- C10: no tick at startup. After construction with interval `I`, no steady
tick fires before one full interval has elapsed (in particular none at half
the interval) and the first tick fires exactly at `I`; at construction
nothing has been invoked, and the first tick, taken with positive capacity
and no pending requests, starts invocation 0 with an empty argument list. -/
theorem claim_startup (T R : Type) (C I cap : Nat) (hI : 1 ≤ I)
    (hcap : cap ≠ 0) :
    (∀ n, n < I → (runTimer (initTimer I) n).2 = []) ∧
    runTimer (initTimer I) I = (⟨I, I, I + I⟩, [I]) ∧
    (initialState T R).invocations = [] ∧
    (step C (initialState T R) (Event.tick cap)).invocations = [(0, [])] := by
  refine ⟨?_, ?_, rfl, ?_⟩
  · intro n hn
    rw [runTimer_before_fire n (initTimer I) I (by simp [initTimer]) hn]
  · have h := runTimer_fire I (initTimer I) hI (by simp [initTimer])
    simpa [initTimer] using h
  · rw [step_tick_go C hcap rfl, startCycle_invocations]
    rfl

theorem claim_startup_witness :
    (runTimer (initTimer 100) 50).2 = [] ∧
    runTimer (initTimer 100) 100 = (⟨100, 100, 200⟩, [100]) ∧
    (initialState Nat Nat).invocations = [] ∧
    (step 5 (initialState Nat Nat) (Event.tick 1)).invocations = [(0, [])] := by
  have h := claim_startup Nat Nat 5 100 1 (by decide) (by decide)
  exact ⟨h.1 50 (by decide), h.2.1, h.2.2.1, h.2.2.2⟩

end TaskPoller
